import Mathlib

/-!
Shallow embedding of the single-node blockchain engine of
`blockchain.py` (classes `Block`, `Transaction`, `Wallet`, `Blockchain`).

SHA-256 is kept abstract as a parameter `sha : String → String` standing
for `hashlib.sha256(s.encode()).hexdigest()`; everything else the engine
does (JSON serialisation with sorted keys, Merkle aggregation, the
nonce-search loop, balance updates, persistence) is translated directly.
The `ecdsa` library is abstracted by the `Crypto` structure, whose
`Option`-valued fields model library calls that may raise.  Randomness
(`SigningKey.generate`) is externalised: each call site that generates a
key receives the freshly generated key material as an explicit argument.
The content of a persisted file is modelled by `SavedState` (the parsed
JSON document).  A Python exception escaping an engine method is modelled
by an `Except.error` / `Option.none` result; the unbounded `while` loops
take an explicit iteration bound `fuel`, so that a run in which the loop
finishes within `fuel` iterations is `some`.
-/

/-- Lowercase hex digit for a value below 16, as produced by `bytes.hex()`. -/
def hexDigit (n : Nat) : Char :=
  if n < 10 then Char.ofNat (48 + n) else Char.ofNat (87 + n)

/-- Model of `bytes.hex()`: two lowercase hex digits per byte.  Bytes are
modelled as `Nat` reduced mod 256. -/
def hexEncode (bs : List Nat) : String :=
  String.mk (bs.foldr
    (fun b acc => hexDigit (b % 256 / 16) :: hexDigit (b % 256 % 16) :: acc) [])

/-- Value of one hex digit character; `none` when the character is not a
hex digit. -/
def hexDigitVal (ch : Char) : Option Nat :=
  if 48 ≤ ch.toNat ∧ ch.toNat ≤ 57 then some (ch.toNat - 48)
  else if 97 ≤ ch.toNat ∧ ch.toNat ≤ 102 then some (ch.toNat - 87)
  else if 65 ≤ ch.toNat ∧ ch.toNat ≤ 70 then some (ch.toNat - 55)
  else none

/-- Model of `bytes.fromhex` on a list of characters: pairs of hex digits;
`none` models the `ValueError` raised on malformed input. -/
def hexDecodeList : List Char → Option (List Nat)
  | [] => some []
  | [_] => none
  | c₁ :: c₂ :: rest =>
    match hexDigitVal c₁, hexDigitVal c₂, hexDecodeList rest with
    | some h, some l, some bs => some ((16 * h + l) :: bs)
    | _, _, _ => none

/-- Model of `bytes.fromhex` on a string. -/
def hexDecode (s : String) : Option (List Nat) :=
  hexDecodeList s.toList

/-- JSON escaping of a single character (`json.dumps` string encoding for
the character sets that occur in the engine). -/
def jsonEscapeChar (ch : Char) : List Char :=
  if ch = '"' then ['\\', '"']
  else if ch = '\\' then ['\\', '\\']
  else [ch]

/-- JSON rendering of a string literal, with quotes. -/
def jsonStr (s : String) : String :=
  String.mk ('"' :: s.toList.foldr (fun ch acc => jsonEscapeChar ch ++ acc) ['"'])

/-- First `n` characters of a string, the model of Python slicing `s[:n]`. -/
def strTake (s : String) (n : Nat) : String :=
  String.mk (s.toList.take n)

/-- Model of Python `s.startswith(t)`. -/
def startsWithStr (s t : String) : Bool :=
  s.toList.take t.toList.length == t.toList

/-- The proof-of-work target `"0" * difficulty`. -/
def powTarget (d : Nat) : String :=
  String.mk (List.replicate d '0')

/-- A transaction (`Transaction.__init__` fields).  The signature is a byte
string, modelled as `List Nat`. -/
structure Transaction where
  sender_pub_key : String
  receiver_pub_key : String
  amount : Int
  signature : Option (List Nat)
deriving DecidableEq

/-- `Transaction.__init__`: the constructor normalises a falsy signature
(`None` or `b""`) to `None` via `signature if signature else None`. -/
def Transaction.init (sender_pub_key receiver_pub_key : String) (amount : Int)
    (signature : Option (List Nat)) : Transaction :=
  { sender_pub_key, receiver_pub_key, amount,
    signature := match signature with
      | some s => if s = [] then none else some s
      | none => none }

/-- The payload both `Transaction.sign` and `Transaction.verify` build:
`f"{sender_pub_key}{receiver_pub_key}{amount}"`. -/
def txSigningData (tx : Transaction) : String :=
  tx.sender_pub_key ++ tx.receiver_pub_key ++ toString tx.amount

/-- The dummy signature `b"mining_reward"` given to reward transactions. -/
def miningRewardSig : List Nat :=
  "mining_reward".toList.map Char.toNat

/-- The `"signature"` entry of `Transaction.to_dict`:
`self.signature.hex() if self.signature else None` (so `b""` also maps to
`None`). -/
def Transaction.sigHexOpt (tx : Transaction) : Option String :=
  match tx.signature with
  | some bs => if bs = [] then none else some (hexEncode bs)
  | none => none

/-- A transaction as it appears in the persisted JSON document
(`Transaction.to_dict` output). -/
structure SavedTx where
  sender : String
  receiver : String
  amount : Int
  signature : Option String
deriving DecidableEq

/-- `Transaction.to_dict`. -/
def Transaction.to_dict (tx : Transaction) : SavedTx :=
  { sender := tx.sender_pub_key, receiver := tx.receiver_pub_key,
    amount := tx.amount, signature := tx.sigHexOpt }

/-- `json.dumps(tx.to_dict(), sort_keys=True)`: keys in lexicographic order
`amount, receiver, sender, signature`. -/
def savedTxJson (st : SavedTx) : String :=
  "\x7b\"amount\": " ++ toString st.amount ++
  ", \"receiver\": " ++ jsonStr st.receiver ++
  ", \"sender\": " ++ jsonStr st.sender ++
  ", \"signature\": " ++ (match st.signature with
    | some s => jsonStr s
    | none => "null") ++ "\x7d"

/-- The canonical serialisation of a transaction hashed by
`Block.calculate_merkle_root`. -/
def txJson (tx : Transaction) : String :=
  savedTxJson tx.to_dict

/-- A block (`Block.__init__` fields). -/
structure Block where
  index : Nat
  timestamp : String
  transactions : List Transaction
  previous_hash : String
  nonce : Nat
  block_description : String
  merkle_root : String
deriving DecidableEq

/-- `json.dumps(dict_copy, sort_keys=True)` in `Block.__hash__`: the header
dictionary (transactions excluded) with keys in lexicographic order
`block_description, index, merkle_root, nonce, previous_hash, timestamp`. -/
def blockHeaderJson (b : Block) : String :=
  "\x7b\"block_description\": " ++ jsonStr b.block_description ++
  ", \"index\": " ++ toString b.index ++
  ", \"merkle_root\": " ++ jsonStr b.merkle_root ++
  ", \"nonce\": " ++ toString b.nonce ++
  ", \"previous_hash\": " ++ jsonStr b.previous_hash ++
  ", \"timestamp\": " ++ jsonStr b.timestamp ++ "\x7d"

/-- `Block.__hash__`: SHA-256 hex digest of the serialised header. -/
def blockHash (sha : String → String) (b : Block) : String :=
  sha (blockHeaderJson b)

/-- One pairing layer of `Block.calculate_merkle_root`: adjacent hex digests
are concatenated and re-hashed; the last element of an odd layer is paired
with itself (`right = left`). -/
def merklePass (sha : String → String) : List String → List String
  | [] => []
  | [x] => [sha (x ++ x)]
  | x :: y :: rest => sha (x ++ y) :: merklePass sha rest

/-- The `while len(tx_hashes) > 1` reduction loop.  The explicit bound is
only a structural-recursion device: each pass shortens a list of length
`n ≥ 2` to `⌈n/2⌉ ≤ n - 1`, so an initial bound equal to the length of the
starting layer is never exhausted before the loop condition fails. -/
def merkleLoopFuel (sha : String → String) : Nat → List String → String
  | 0, hashes => hashes.headD ""
  | fuel + 1, hashes =>
    if hashes.length ≤ 1 then hashes.headD ""
    else merkleLoopFuel sha fuel (merklePass sha hashes)

/-- The Merkle reduction of a non-empty layer of transaction hashes. -/
def merkleLoop (sha : String → String) (hashes : List String) : String :=
  merkleLoopFuel sha hashes.length hashes

/-- `Block.calculate_merkle_root`. -/
def calculate_merkle_root (sha : String → String) (txs : List Transaction) : String :=
  let tx_hashes := txs.map (fun tx => sha (txJson tx))
  if tx_hashes = [] then sha "" else merkleLoop sha tx_hashes

/-- `Block.__init__`: stores the given fields and computes the Merkle root
when the `merkle_root` argument is falsy (`None` or `""`). -/
def Block.init (sha : String → String) (index : Nat) (timestamp : String)
    (transactions : List Transaction) (previous_hash : String) (nonce : Nat)
    (block_description : String) (merkle_root : Option String) : Block :=
  { index, timestamp, transactions, previous_hash, nonce, block_description,
    merkle_root := match merkle_root with
      | some m => if m = "" then calculate_merkle_root sha transactions else m
      | none => calculate_merkle_root sha transactions }

/-- The `while not self.__hash__().startswith(target)` search of
`Block.proof_of_work`, trying nonces `k, k+1, k+2, …`; `none` when the
bound on the number of iterations is exhausted (the Python loop is
unbounded). -/
def powLoop (hdr : Nat → String) (target : String) : Nat → Nat → Option Nat
  | 0, _ => none
  | fuel + 1, n =>
    if startsWithStr (hdr n) target then some n
    else powLoop hdr target fuel (n + 1)

/-- `Block.proof_of_work`: resets the nonce to 0, searches upward, stores
the winning nonce in the block and returns it. -/
def Block.proof_of_work (b : Block) (sha : String → String)
    (difficulty fuel : Nat) : Option (Block × Nat) :=
  match powLoop (fun n => blockHash sha { b with nonce := n }) (powTarget difficulty) fuel 0 with
  | some n => some ({ b with nonce := n }, n)
  | none => none

/-- A wallet (`Wallet.__init__` fields).  The key objects of the `ecdsa`
library are modelled by their canonical string material.  Note that
`Wallet.__init__` always stores a `private_key`: when none is supplied it
generates a fresh keypair, and its `public_key` parameter is never read. -/
structure Wallet where
  name : String
  balance : Int
  private_key : String
  public_key : String
deriving DecidableEq

/-- Abstraction of the `ecdsa` library over secp256k1.  `none` results
model raised exceptions. -/
structure Crypto where
  skFromBytes : List Nat → Option String
  derivePub : String → String
  sign : String → String → List Nat
  vkFromBytes : List Nat → Option String
  verify : String → List Nat → String → Option Bool

/-- The wallet produced by the `SigningKey.generate` branch of
`Wallet.__init__`, given the freshly generated key `freshKey`. -/
def generatedWallet (c : Crypto) (freshKey name : String) (balance : Int) : Wallet :=
  { name, balance, private_key := freshKey, public_key := c.derivePub freshKey }

/-- `Wallet.__init__`.  A truthy `private_key` argument is decoded from hex
and loaded (either step may raise); otherwise a fresh keypair is
generated.  The `public_key` parameter is accepted and ignored, exactly as
in the source. -/
def Wallet.init (c : Crypto) (freshKey : String) (name : String) (balance : Int)
    (private_key : Option String) (public_key : Option String) : Except String Wallet :=
  match private_key with
  | some pk =>
    if pk = "" then Except.ok (generatedWallet c freshKey name balance)
    else
      match hexDecode pk with
      | none => Except.error "ValueError"
      | some bs =>
        match c.skFromBytes bs with
        | none => Except.error "MalformedPointError"
        | some sk =>
          Except.ok { name, balance, private_key := sk, public_key := c.derivePub sk }
  | none => Except.ok (generatedWallet c freshKey name balance)

/-- A wallet as it appears in the persisted JSON document
(`Wallet.to_dict` output; the private key is not serialised). -/
structure SavedWallet where
  name : String
  balance : Int
  public_key : String
deriving DecidableEq

/-- `Wallet.to_dict`. -/
def Wallet.to_dict (w : Wallet) : SavedWallet :=
  { name := w.name, balance := w.balance, public_key := w.public_key }

/-- Lookup in a Python dict modelled as an association list without
duplicate keys. -/
def dictGet {α : Type} (k : String) : List (String × α) → Option α
  | [] => none
  | (k₁, v) :: rest => if k₁ = k then some v else dictGet k rest

/-- Assignment `d[k] = v` on a Python dict. -/
def dictInsert {α : Type} (k : String) (v : α) : List (String × α) → List (String × α)
  | [] => [(k, v)]
  | (k₁, v₁) :: rest =>
    if k₁ = k then (k, v) :: rest else (k₁, v₁) :: dictInsert k v rest

/-- In-place update `f` of the entry stored at key `k` (such as
`d[k].balance += x`). -/
def dictModify {α : Type} (k : String) (f : α → α) : List (String × α) → List (String × α)
  | [] => []
  | (k₁, v) :: rest =>
    if k₁ = k then (k₁, f v) :: rest else (k₁, v) :: dictModify k f rest

/-- The engine state (`Blockchain.__init__` fields). -/
structure Blockchain where
  block_list : List Block
  wallets : List (String × Wallet)
  pending_transactions : List Transaction
  mining_reward : Int
  difficulty : Nat
  directory : String
deriving DecidableEq

/-- `Blockchain.__init__`: the fresh engine. -/
def Blockchain.init : Blockchain :=
  { block_list := [], wallets := [], pending_transactions := [],
    mining_reward := 50, difficulty := 4, directory := "prototype" }

/-- `Blockchain.genesis_block`: mines a block with index 0, no
transactions and previous hash `"0"`, and appends it.  `ts` is the
`time.strftime` timestamp of the call; `none` when proof-of-work does not
finish within `fuel` iterations. -/
def genesis_block (sha : String → String) (ts : String) (fuel : Nat)
    (bc : Blockchain) : Option Blockchain :=
  let block := Block.init sha 0 ts [] "0" 0 "Genesis Block" none
  match block.proof_of_work sha bc.difficulty fuel with
  | some mined => some { bc with block_list := bc.block_list ++ [mined.1] }
  | none => none

/-- `Blockchain.mine_block`: appends the reward transaction (with the
dummy signature assigned directly, bypassing the constructor) to the
pending pool, builds the next block from the whole pool, mines it, appends
it, credits a registered miner, and clears the pool.  `none` models the
`IndexError` on an empty chain or proof-of-work not finishing within
`fuel` iterations. -/
def mine_block (sha : String → String) (ts : String) (fuel : Nat)
    (bc : Blockchain) (miner_pub_key : String) : Option Blockchain :=
  let reward_tx : Transaction :=
    { Transaction.init "0" miner_pub_key bc.mining_reward none with
      signature := some miningRewardSig }
  let pending := bc.pending_transactions ++ [reward_tx]
  match bc.block_list.getLast? with
  | none => none
  | some last_block =>
    let new_block :=
      Block.init sha bc.block_list.length ts pending (blockHash sha last_block) 0 "Block" none
    match new_block.proof_of_work sha bc.difficulty fuel with
    | none => none
    | some mined =>
      let bc₁ := { bc with block_list := bc.block_list ++ [mined.1] }
      let bc₂ :=
        if (dictGet miner_pub_key bc₁.wallets).isSome then
          { bc₁ with wallets := (dictModify miner_pub_key
              (fun w => { w with balance := w.balance + bc.mining_reward }) bc₁.wallets) }
        else bc₁
      some { bc₂ with pending_transactions := [] }

/-- `Transaction.verify`: decodes the public key (both decoding steps may
raise), rebuilds the payload and checks the signature.  In the `ecdsa`
library `vk.verify` either returns `True` or raises, which the abstract
`Crypto.verify` reflects as `some true`, `some false` or `none`. -/
def Transaction.verify (c : Crypto) (tx : Transaction) (public_key : String) :
    Except String Bool :=
  let data := txSigningData tx
  match hexDecode public_key with
  | none => Except.error "ValueError"
  | some bs =>
    match c.vkFromBytes bs with
    | none => Except.error "MalformedPointError"
    | some vk =>
      match tx.signature with
      | none => Except.error "BadSignatureError"
      | some sig =>
        match c.verify vk sig data with
        | none => Except.error "BadSignatureError"
        | some b => Except.ok b

/-- `Blockchain.add_transaction`.  `Except.ok (msg, bc)` is a normal
return of the message `msg` with post-state `bc`; `Except.error` is an
exception escaping the method (no state is mutated before any raise
point).  The checks, the construction of the transaction, the signing and
the eager balance update follow the source order. -/
def add_transaction (c : Crypto) (bc : Blockchain)
    (sender_pub_key receiver_pub_key : String) (amount : Int)
    (private_key : String) : Except String (String × Blockchain) :=
  match dictGet sender_pub_key bc.wallets, dictGet receiver_pub_key bc.wallets with
  | some sender_wallet, some _ =>
    if sender_wallet.balance < amount then Except.ok ("Insufficient funds", bc)
    else
      let tx := Transaction.init sender_pub_key receiver_pub_key amount none
      match hexDecode private_key with
      | none => Except.error "ValueError"
      | some bs =>
        match c.skFromBytes bs with
        | none => Except.error "MalformedPointError"
        | some sk =>
          if c.derivePub sk ≠ sender_pub_key then
            Except.ok ("Private key does not match sender’s public key", bc)
          else
            let tx := { tx with signature := some (c.sign sk (txSigningData tx)) }
            match tx.verify c sender_pub_key with
            | Except.error e => Except.error e
            | Except.ok ok =>
              if !ok then Except.ok ("Invalid signature", bc)
              else
                Except.ok ("Transaction added to pending list",
                  { bc with
                    wallets := (dictModify receiver_pub_key
                      (fun w => { w with balance := w.balance + amount })
                      (dictModify sender_pub_key
                        (fun w => { w with balance := w.balance - amount }) bc.wallets)),
                    pending_transactions := bc.pending_transactions ++ [tx] })
  | _, _ => Except.ok ("Invalid sender or receiver public key", bc)

/-- `Blockchain.create_wallet`: `Wallet(name)` generates the full wallet
from `fresh₁`; the stored copy `Wallet(name, 0, public_key=pub_key)` takes
the generate branch of `Wallet.__init__` as well (the `public_key`
argument is ignored there), so it holds a second fresh keypair `fresh₂`.
Returns the updated engine and the full wallet handed to the caller. -/
def create_wallet (c : Crypto) (fresh₁ fresh₂ : String) (bc : Blockchain)
    (name : String) : Blockchain × Wallet :=
  let wallet := generatedWallet c fresh₁ name 0
  let pub_key := wallet.public_key
  let stored := generatedWallet c fresh₂ name 0
  ({ bc with wallets := dictInsert pub_key stored bc.wallets }, wallet)

/-- The `for i in range(1, len(...))` body of
`Blockchain.validate_blockchain`, walking adjacent pairs: the (vacuous)
self-consistency check, the linkage check, and the slice-based
proof-of-work check. -/
def validatePairs (sha : String → String) (d : Nat) : List Block → Bool
  | [] => true
  | [_] => true
  | prev :: current :: rest =>
    if blockHash sha current ≠ blockHash sha current then false
    else if current.previous_hash ≠ blockHash sha prev then false
    else if strTake (blockHash sha current) d ≠ powTarget d then false
    else validatePairs sha d (current :: rest)

/-- `Blockchain.validate_blockchain`. -/
def validate_blockchain (sha : String → String) (bc : Blockchain) : Bool :=
  validatePairs sha bc.difficulty bc.block_list

/-- A block as it appears in the persisted JSON document (`block.__dict__`
with transactions serialised through `Transaction.to_dict`). -/
structure SavedBlock where
  index : Nat
  timestamp : String
  transactions : List SavedTx
  previous_hash : String
  nonce : Nat
  block_description : String
  merkle_root : String
deriving DecidableEq

/-- The whole persisted JSON document. -/
structure SavedState where
  blocks : List SavedBlock
  wallets : List (String × SavedWallet)
deriving DecidableEq

/-- `block.__dict__` as serialised by `save_blockchain_to_file`. -/
def Block.to_saved (b : Block) : SavedBlock :=
  { index := b.index, timestamp := b.timestamp,
    transactions := b.transactions.map Transaction.to_dict,
    previous_hash := b.previous_hash, nonce := b.nonce,
    block_description := b.block_description, merkle_root := b.merkle_root }

/-- `Blockchain.save_blockchain_to_file`: the data written to disk (the
filesystem path is outside the model). -/
def save_blockchain_to_file (bc : Blockchain) : SavedState :=
  { blocks := bc.block_list.map Block.to_saved,
    wallets := bc.wallets.map (fun kw => (kw.1, kw.2.to_dict)) }

/-- Reconstruction of one transaction in `load_blockchain_from_file`:
`Transaction(tx["sender"], tx["receiver"], tx["amount"],
bytes.fromhex(tx["signature"]) if tx["signature"] else None)`; `none`
models the `ValueError` of `bytes.fromhex`. -/
def loadTx (st : SavedTx) : Option Transaction :=
  match st.signature with
  | none => some (Transaction.init st.sender st.receiver st.amount none)
  | some hs =>
    if hs = "" then some (Transaction.init st.sender st.receiver st.amount none)
    else
      match hexDecode hs with
      | none => none
      | some bs => some (Transaction.init st.sender st.receiver st.amount (some bs))

/-- Reconstruction of one block in `load_blockchain_from_file` (the stored
`merkle_root` is passed to the constructor). -/
def loadBlock (sha : String → String) (sb : SavedBlock) : Option Block :=
  match sb.transactions.foldr
      (fun st acc => match loadTx st, acc with
        | some tx, some txs => some (tx :: txs)
        | _, _ => none) (some []) with
  | none => none
  | some txs =>
    some (Block.init sha sb.index sb.timestamp txs sb.previous_hash sb.nonce
      sb.block_description (some sb.merkle_root))

/-- The block-reconstruction loop of `load_blockchain_from_file`. -/
def loadBlocks (sha : String → String) : List SavedBlock → Option (List Block)
  | [] => some []
  | sb :: rest =>
    match loadBlock sha sb, loadBlocks sha rest with
    | some b, some bs => some (b :: bs)
    | _, _ => none

/-- The wallet-reconstruction loop of `load_blockchain_from_file`:
`Wallet(wallet_data["name"], wallet_data["balance"], public_key=pub_key)`
takes the generate branch of `Wallet.__init__` (the `public_key` argument
is ignored), so the i-th reconstructed wallet holds the fresh keypair
`fresh i`. -/
def loadWallets (c : Crypto) (fresh : Nat → String) :
    Nat → List (String × SavedWallet) → List (String × Wallet)
  | _, [] => []
  | i, (k, wd) :: rest =>
    (k, generatedWallet c (fresh i) wd.name wd.balance) :: loadWallets c fresh (i + 1) rest

/-- `Blockchain.load_blockchain_from_file`.  `file = none` models a
missing file; reconstruction failures (`bytes.fromhex` raising) and a
genesis proof-of-work not finishing within `fuel` give `none`; otherwise
the outcome message and the post-state.  The pending pool is never
touched. -/
def load_blockchain_from_file (sha : String → String) (ts : String) (fuel : Nat)
    (fresh : Nat → String) (c : Crypto) (bc : Blockchain)
    (file : Option SavedState) : Option (Blockchain × String) :=
  match file with
  | none => some (bc, "File not found.")
  | some data =>
    match loadBlocks sha data.blocks with
    | none => none
    | some blocks =>
      let bc₁ := { bc with block_list := blocks,
                           wallets := loadWallets c fresh 0 data.wallets }
      if validate_blockchain sha bc₁ then
        some (bc₁, "Blockchain loaded successfully")
      else
        match genesis_block sha ts fuel { bc₁ with block_list := [], wallets := [] } with
        | some bc₂ => some (bc₂, "Invalid blockchain loaded! Started new.")
        | none => none

/-- One `mine_block` call in a chain-building run: the miner key, the
timestamp of the call and the iteration bound of its proof-of-work. -/
structure MineStep where
  miner : String
  ts : String
  fuel : Nat
deriving DecidableEq

/-- Repeated `mine_block` calls. -/
def mineFold (sha : String → String) : Blockchain → List MineStep → Option Blockchain
  | bc, [] => some bc
  | bc, st :: rest =>
    match mine_block sha st.ts st.fuel bc st.miner with
    | none => none
    | some bc₁ => mineFold sha bc₁ rest

/-- A chain built purely through `genesis_block` followed by repeated
`mine_block`. -/
def buildChain (sha : String → String) (ts₀ : String) (fuel₀ : Nat)
    (bc₀ : Blockchain) (steps : List MineStep) : Option Blockchain :=
  match genesis_block sha ts₀ fuel₀ bc₀ with
  | none => none
  | some g => mineFold sha g steps

/-- The chain-shape invariant: starting from `p`, every later block links
to the hash of its predecessor and its own hash meets the proof-of-work
target. -/
def chainLinks (sha : String → String) (d : Nat) : Block → List Block → Prop
  | _, [] => True
  | p, c :: rest =>
    (c.previous_hash = blockHash sha p
      ∧ startsWithStr (blockHash sha c) (powTarget d) = true)
    ∧ chainLinks sha d c rest

/-- A constant toy hash used to instantiate the abstract SHA-256 parameter
in concrete evaluations; it meets any all-zero target of length at most 4. -/
def shaZeros (_ : String) : String := "0000"

/-- A toy crypto instance for concrete evaluations: key material is its own
canonical form, the derived verification key is the key itself, and
verification always succeeds. -/
def testCrypto : Crypto :=
  { skFromBytes := fun bs => some (hexEncode bs)
  , derivePub := fun sk => sk
  , sign := fun _ _ => [7]
  , vkFromBytes := fun bs => some (hexEncode bs)
  , verify := fun _ _ _ => some true }

/-- The genesis block of the concrete chain used by the evaluations. -/
def c1g : Block :=
  { index := 0, timestamp := "t0", transactions := [], previous_hash := "0",
    nonce := 0, block_description := "Genesis Block", merkle_root := "0000" }

/-- The reward transaction of the concrete chain used by the evaluations. -/
def c1rtx : Transaction :=
  { sender_pub_key := "0", receiver_pub_key := "M", amount := 50,
    signature := some miningRewardSig }

/-- The second block of the concrete chain used by the evaluations. -/
def c1b1 : Block :=
  { index := 1, timestamp := "t1", transactions := [c1rtx], previous_hash := "0000",
    nonce := 0, block_description := "Block", merkle_root := "0000" }

/-- The concrete two-block chain state used by the evaluations. -/
def c1bc : Blockchain :=
  { block_list := [c1g, c1b1], wallets := [], pending_transactions := [],
    mining_reward := 50, difficulty := 4, directory := "prototype" }

/-- A registered miner wallet used by the concrete evaluations. -/
def c2w : Wallet :=
  { name := "M", balance := 3, private_key := "sk", public_key := "M" }

/-- A one-block engine state with a registered miner, used by the concrete
evaluations. -/
def c2bc : Blockchain :=
  { block_list := [c1g], wallets := [("M", c2w)], pending_transactions := [],
    mining_reward := 50, difficulty := 4, directory := "prototype" }

/-- The state produced by mining once from `c2bc`. -/
def c2bc' : Blockchain :=
  { block_list := [c1g, c1b1],
    wallets := [("M", { name := "M", balance := 53, private_key := "sk", public_key := "M" })],
    pending_transactions := [], mining_reward := 50, difficulty := 4,
    directory := "prototype" }

/-- An engine state with two funded wallets (`testCrypto` key material),
used by the concrete evaluations of `add_transaction`. -/
def c3bc : Blockchain :=
  { block_list := [],
    wallets := [("ab", { name := "A", balance := 100, private_key := "ab", public_key := "ab" }),
                ("cd", { name := "B", balance := 0, private_key := "cd", public_key := "cd" })],
    pending_transactions := [], mining_reward := 50, difficulty := 4,
    directory := "prototype" }

/-- The transaction produced at saving and reloading: the signature is
normalised byte-wise mod 256 through `bytes.hex`/`bytes.fromhex` (an
identity on genuine bytes) and a falsy signature stays `None`. -/
def reloadTx (tx : Transaction) : Transaction :=
  { tx with signature := match tx.signature with
      | none => none
      | some bs => if bs = [] then none else some (bs.map (fun b => b % 256)) }

/-- The block produced at saving and reloading: all header fields are kept
verbatim (the stored Merkle root is handed back to the constructor) and
only the transaction signatures are normalised. -/
def reloadBlock (b : Block) : Block :=
  { b with transactions := b.transactions.map reloadTx }

/-- A transaction with a genuine byte signature, used by the round-trip
evaluation. -/
def c9tx : Transaction :=
  { sender_pub_key := "a", receiver_pub_key := "b", amount := 5, signature := some [171] }

/-- A one-block chain with a signed transaction, used by the round-trip
evaluation. -/
def c9blk : Block :=
  { index := 0, timestamp := "t", transactions := [c9tx], previous_hash := "0",
    nonce := 0, block_description := "Genesis Block", merkle_root := "mr" }

/-- The engine state saved in the round-trip evaluation. -/
def c9bc : Blockchain :=
  { block_list := [c9blk],
    wallets := [("w", { name := "W", balance := 7, private_key := "sk", public_key := "pk" })],
    pending_transactions := [], mining_reward := 50, difficulty := 4,
    directory := "prototype" }

/-- The engine state reconstructed by loading the save of `c9bc` into a
fresh engine (the reconstructed wallet holds the fresh keypair `"f"`). -/
def c9bc' : Blockchain :=
  { block_list := [c9blk],
    wallets := [("w", { name := "W", balance := 7, private_key := "f", public_key := "f" })],
    pending_transactions := [], mining_reward := 50, difficulty := 4,
    directory := "prototype" }

/-- An engine state with a non-empty pending pool, used by the
load/pending evaluation. -/
def c10bc : Blockchain :=
  { block_list := [c1g], wallets := [],
    pending_transactions := [{ sender_pub_key := "p", receiver_pub_key := "q",
                               amount := 1, signature := none }],
    mining_reward := 50, difficulty := 4, directory := "prototype" }

/-- Python slicing `s[:d] == "0"*d` and `s.startswith("0"*d)` agree. -/
theorem strTake_eq_powTarget_iff (s : String) (d : Nat) :
    strTake s d = powTarget d ↔ startsWithStr s (powTarget d) = true := by
  unfold strTake powTarget startsWithStr
  constructor
  · intro h
    have h' : List.take d s.data = List.replicate d '0' := congrArg String.data h
    simpa [String.toList, List.length_replicate] using h'
  · intro h
    have h' : List.take d s.data = List.replicate d '0' := by
      simpa [String.toList, List.length_replicate] using h
    exact congrArg String.mk h'

/-- A nonce returned by the search loop satisfies the target condition. -/
theorem powLoop_sat (hdr : Nat → String) (t : String) :
    ∀ fuel k n, powLoop hdr t fuel k = some n → startsWithStr (hdr n) t = true := by
  intro fuel
  induction fuel with
  | zero => intro k n h; simp [powLoop] at h
  | succ f ih =>
    intro k n h
    unfold powLoop at h
    split at h
    · cases h; assumption
    · exact ih (k + 1) n h

/-- The search loop, started low enough and given enough iterations,
returns exactly the least satisfying nonce. -/
theorem powLoop_min (hdr : Nat → String) (t : String) (n₀ : Nat)
    (hsat : startsWithStr (hdr n₀) t = true)
    (hmin : ∀ m, m < n₀ → ¬ startsWithStr (hdr m) t = true) :
    ∀ fuel k, k ≤ n₀ → n₀ < k + fuel → powLoop hdr t fuel k = some n₀ := by
  intro fuel
  induction fuel with
  | zero => intro k hk hlt; omega
  | succ f ih =>
    intro k hk hlt
    unfold powLoop
    by_cases hc : startsWithStr (hdr k) t = true
    · have hkn : k = n₀ := by
        rcases Nat.lt_or_ge k n₀ with h | h
        · exact absurd hc (hmin k h)
        · omega
      subst hkn
      simp [hc]
    · simp only [hc, if_false, Bool.false_eq_true]
      have hkn : k ≠ n₀ := fun he => hc (he ▸ hsat)
      exact ih (k + 1) (by omega) (by omega)

/-- What a successful `proof_of_work` run yields: the block with the found
nonce stored, the nonce itself, and a hash meeting the target. -/
theorem proof_of_work_spec {b : Block} {sha : String → String} {d fuel : Nat}
    {p : Block × Nat} (h : b.proof_of_work sha d fuel = some p) :
    p.1 = { b with nonce := p.2 }
    ∧ startsWithStr (blockHash sha p.1) (powTarget d) = true := by
  unfold Block.proof_of_work at h
  cases hpl : powLoop (fun n => blockHash sha { b with nonce := n }) (powTarget d) fuel 0 with
  | none => rw [hpl] at h; cases h
  | some n =>
    rw [hpl] at h
    cases h
    exact ⟨rfl, powLoop_sat _ _ fuel 0 n hpl⟩

/-- Updating the entry at `k` is seen by a lookup of `k` through `f`. -/
theorem dictGet_modify_self {α : Type} (k : String) (f : α → α) :
    ∀ l : List (String × α), dictGet k (dictModify k f l) = (dictGet k l).map f := by
  intro l
  induction l with
  | nil => rfl
  | cons kv rest ih =>
    obtain ⟨k₁, v⟩ := kv
    by_cases hk : k₁ = k <;> simp [dictGet, dictModify, hk, ih]

/-- Updating the entry at `k'` is invisible to a lookup of `k ≠ k'`. -/
theorem dictGet_modify_other {α : Type} {k k' : String} (hne : k' ≠ k) (f : α → α) :
    ∀ l : List (String × α), dictGet k (dictModify k' f l) = dictGet k l := by
  intro l
  induction l with
  | nil => rfl
  | cons kv rest ih =>
    obtain ⟨k₁, v⟩ := kv
    by_cases hk : k₁ = k'
    · subst hk
      simp [dictGet, dictModify, hne, ih]
    · by_cases hk2 : k₁ = k
      · subst hk2
        have hne' : k₁ ≠ k' := Ne.symm hne
        simp [dictGet, dictModify, hne', ih]
      · simp [dictGet, dictModify, hk, hk2, ih]

/-- Structural description of a successful `mine_block` call. -/
theorem mine_block_spec {sha : String → String} {ts : String} {fuel : Nat}
    {bc : Blockchain} {miner : String} {bc' : Blockchain}
    (h : mine_block sha ts fuel bc miner = some bc') :
    ∃ last nb, bc.block_list.getLast? = some last
      ∧ bc'.block_list = bc.block_list ++ [nb]
      ∧ nb.previous_hash = blockHash sha last
      ∧ startsWithStr (blockHash sha nb) (powTarget bc.difficulty) = true
      ∧ nb.transactions = bc.pending_transactions ++
          [{ sender_pub_key := "0", receiver_pub_key := miner,
             amount := bc.mining_reward, signature := some miningRewardSig }]
      ∧ nb.merkle_root = calculate_merkle_root sha nb.transactions
      ∧ bc'.pending_transactions = []
      ∧ bc'.difficulty = bc.difficulty
      ∧ bc'.mining_reward = bc.mining_reward
      ∧ bc'.wallets = (if (dictGet miner bc.wallets).isSome then
          dictModify miner
            (fun w => { w with balance := w.balance + bc.mining_reward }) bc.wallets
        else bc.wallets) := by
  unfold mine_block at h
  cases hlast : bc.block_list.getLast? with
  | none => rw [hlast] at h; cases h
  | some last =>
    rw [hlast] at h
    dsimp only at h
    cases hpow : (Block.init sha bc.block_list.length ts
        (bc.pending_transactions ++
          [{ Transaction.init "0" miner bc.mining_reward none with
             signature := some miningRewardSig }])
        (blockHash sha last) 0 "Block" none).proof_of_work sha bc.difficulty fuel with
    | none => rw [hpow] at h; cases h
    | some mined =>
      rw [hpow] at h
      dsimp only at h
      obtain ⟨hfst, hsat⟩ := proof_of_work_spec hpow
      by_cases hw : (dictGet miner bc.wallets).isSome = true
      · rw [if_pos hw] at h
        cases h
        refine ⟨last, mined.1, rfl, rfl, ?_, hsat, ?_, ?_, rfl, rfl, rfl, ?_⟩
        · rw [hfst]; rfl
        · rw [hfst]; simp [Block.init, Transaction.init]
        · rw [hfst]; simp [Block.init]
        · rw [if_pos hw]
      · rw [if_neg hw] at h
        cases h
        refine ⟨last, mined.1, rfl, rfl, ?_, hsat, ?_, ?_, rfl, rfl, rfl, ?_⟩
        · rw [hfst]; rfl
        · rw [hfst]; simp [Block.init, Transaction.init]
        · rw [hfst]; simp [Block.init]
        · rw [if_neg hw]

/-- Structural description of a successful `genesis_block` call. -/
theorem genesis_block_spec {sha : String → String} {ts : String} {fuel : Nat}
    {bc bc' : Blockchain} (h : genesis_block sha ts fuel bc = some bc') :
    ∃ g, bc'.block_list = bc.block_list ++ [g]
      ∧ g.previous_hash = "0"
      ∧ g.index = 0
      ∧ g.transactions = []
      ∧ bc'.wallets = bc.wallets
      ∧ bc'.pending_transactions = bc.pending_transactions
      ∧ bc'.difficulty = bc.difficulty
      ∧ bc'.mining_reward = bc.mining_reward := by
  unfold genesis_block at h
  dsimp only at h
  cases hpow : (Block.init sha 0 ts [] "0" 0 "Genesis Block" none).proof_of_work
      sha bc.difficulty fuel with
  | none => rw [hpow] at h; cases h
  | some mined =>
    rw [hpow] at h
    obtain ⟨hfst, _⟩ := proof_of_work_spec hpow
    cases h
    exact ⟨mined.1, rfl, by rw [hfst]; rfl, by rw [hfst]; rfl, by rw [hfst]; rfl,
      rfl, rfl, rfl, rfl⟩

/-- `validate_blockchain`'s pairwise walk succeeds exactly on chains
satisfying the linkage/proof-of-work invariant. -/
theorem validatePairs_iff (sha : String → String) (d : Nat) :
    ∀ (l : List Block) (p : Block),
      validatePairs sha d (p :: l) = true ↔ chainLinks sha d p l := by
  intro l
  induction l with
  | nil => intro p; simp [validatePairs, chainLinks]
  | cons c rest ih =>
    intro p
    unfold validatePairs chainLinks
    rw [if_neg (by simp)]
    by_cases hlink : c.previous_hash = blockHash sha p
    · rw [if_neg (by simpa using hlink)]
      by_cases hpow : strTake (blockHash sha c) d = powTarget d
      · rw [if_neg (by simpa using hpow)]
        rw [strTake_eq_powTarget_iff] at hpow
        simp [ih c, hlink, hpow]
      · rw [if_pos (by simpa using hpow)]
        rw [strTake_eq_powTarget_iff] at hpow
        simp [hlink, hpow]
    · rw [if_pos (by simpa using hlink)]
      simp [hlink]

/-- Appending a block that links to the last block of the chain and meets
the target preserves the chain invariant. -/
theorem chainLinks_append (sha : String → String) (d : Nat) :
    ∀ (l : List Block) (p last b : Block),
      (p :: l).getLast? = some last →
      (chainLinks sha d p (l ++ [b]) ↔
        chainLinks sha d p l
        ∧ b.previous_hash = blockHash sha last
        ∧ startsWithStr (blockHash sha b) (powTarget d) = true) := by
  intro l
  induction l with
  | nil =>
    intro p last b hl
    simp only [List.getLast?_singleton, Option.some.injEq] at hl
    subst hl
    simp [chainLinks]
  | cons c rest ih =>
    intro p last b hl
    rw [List.getLast?_cons_cons] at hl
    simp only [List.cons_append]
    unfold chainLinks
    rw [ih c last b hl]
    exact and_assoc.symm

/-- Index form of the chain invariant over `p :: l`. -/
theorem chainLinks_get (sha : String → String) (d : Nat) :
    ∀ (l : List Block) (p : Block), chainLinks sha d p l →
      ∀ i (hi : i + 1 < (p :: l).length),
        ((p :: l).get ⟨i + 1, hi⟩).previous_hash
            = blockHash sha ((p :: l).get ⟨i, Nat.lt_of_succ_lt hi⟩)
        ∧ startsWithStr (blockHash sha ((p :: l).get ⟨i + 1, hi⟩)) (powTarget d) = true := by
  intro l
  induction l with
  | nil => intro p h i hi; simp at hi
  | cons c rest ih =>
    intro p h i hi
    obtain ⟨⟨hlink, hpow⟩, htail⟩ := h
    cases i with
    | zero => exact ⟨hlink, hpow⟩
    | succ j =>
      have hj : j + 1 < (c :: rest).length := by
        simpa [Nat.succ_lt_succ_iff] using hi
      simpa using ih c htail j hj

/-- Repeated mining preserves the chain invariant and the difficulty, and
never changes the genesis block. -/
theorem mineFold_inv (sha : String → String) :
    ∀ (steps : List MineStep) (bc bc' : Blockchain),
      mineFold sha bc steps = some bc' →
      ∀ g l, bc.block_list = g :: l → chainLinks sha bc.difficulty g l →
        ∃ l', bc'.block_list = g :: l'
          ∧ chainLinks sha bc'.difficulty g l'
          ∧ bc'.difficulty = bc.difficulty := by
  intro steps
  induction steps with
  | nil =>
    intro bc bc' h g l hbl hcl
    cases h
    exact ⟨l, hbl, hcl, rfl⟩
  | cons st rest ih =>
    intro bc bc' h g l hbl hcl
    unfold mineFold at h
    cases hm : mine_block sha st.ts st.fuel bc st.miner with
    | none => rw [hm] at h; cases h
    | some bc₁ =>
      rw [hm] at h
      obtain ⟨last, nb, hlast, hbl1, hprev, hpow, -, -, -, hdiff, -, -⟩ := mine_block_spec hm
      rw [hbl] at hlast hbl1
      have hcl1 : chainLinks sha bc.difficulty g (l ++ [nb]) :=
        (chainLinks_append sha bc.difficulty l g last nb hlast).mpr ⟨hcl, hprev, hpow⟩
      obtain ⟨l', hbl', hcl', hdiff'⟩ := ih bc₁ bc' h g (l ++ [nb])
        (by simpa using hbl1) (by rwa [hdiff])
      exact ⟨l', hbl', hcl', by rw [hdiff', hdiff]⟩

/-- Claim C1: every chain built by one `genesis_block` call followed by any
number of `mine_block` calls (from an engine whose chain is empty) has a
genesis block with `previous_hash = "0"`, every later block stores the
hash of its predecessor and has a hash meeting the difficulty target, and
`validate_blockchain` returns `True` on it. -/
theorem chain_built_by_mining_is_valid (sha : String → String) (ts₀ : String)
    (fuel₀ : Nat) (steps : List MineStep) (bc₀ bc : Blockchain)
    (hempty : bc₀.block_list = [])
    (h : buildChain sha ts₀ fuel₀ bc₀ steps = some bc) :
    (∃ g l, bc.block_list = g :: l ∧ g.previous_hash = "0")
    ∧ (∀ i (hi : i + 1 < bc.block_list.length),
        (bc.block_list.get ⟨i + 1, hi⟩).previous_hash
            = blockHash sha (bc.block_list.get ⟨i, Nat.lt_of_succ_lt hi⟩)
        ∧ startsWithStr (blockHash sha (bc.block_list.get ⟨i + 1, hi⟩))
            (powTarget bc.difficulty) = true)
    ∧ validate_blockchain sha bc = true := by
  unfold buildChain at h
  cases hg : genesis_block sha ts₀ fuel₀ bc₀ with
  | none => rw [hg] at h; cases h
  | some gbc =>
    rw [hg] at h
    obtain ⟨g, hgl, hgprev, -, -, -, -, hgdiff, -⟩ := genesis_block_spec hg
    rw [hempty, List.nil_append] at hgl
    obtain ⟨l', hbl', hcl', hdiff'⟩ := mineFold_inv sha steps gbc bc h g [] hgl trivial
    refine ⟨⟨g, l', hbl', hgprev⟩, ?_, ?_⟩
    · intro i hi
      have := chainLinks_get sha bc.difficulty l' g hcl' i (by rwa [hbl'] at hi)
      simpa [hbl'] using this
    · unfold validate_blockchain
      rw [hbl']
      exact (validatePairs_iff sha bc.difficulty l' g).mpr hcl'

/-- Witness for C1: a concrete genesis-plus-one-mine run under a toy hash
produces the chain `c1bc`, which `validate_blockchain` accepts. -/
theorem chain_built_by_mining_is_valid_witness :
    buildChain shaZeros "t0" 1 Blockchain.init [⟨"M", "t1", 1⟩] = some c1bc
    ∧ validate_blockchain shaZeros c1bc = true :=
  ⟨by decide,
   (chain_built_by_mining_is_valid shaZeros "t0" 1 [⟨"M", "t1", 1⟩]
      Blockchain.init c1bc (by decide) (by decide)).2.2⟩

/-- Claim C2: from a state with a non-empty chain and a registered miner,
a successful `mine_block` appends exactly one block whose transaction list
is the prior pending pool followed by the single reward transaction
`("0" → miner, mining_reward)` with the sentinel signature; afterwards the
pool is empty and the miner's registry balance has grown by exactly
`mining_reward`. -/
theorem mine_block_effects (sha : String → String) (ts : String) (fuel : Nat)
    (bc bc' : Blockchain) (miner : String) (w : Wallet)
    (hne : bc.block_list ≠ [])
    (hw : dictGet miner bc.wallets = some w)
    (h : mine_block sha ts fuel bc miner = some bc') :
    ∃ nb, bc'.block_list = bc.block_list ++ [nb]
      ∧ nb.transactions = bc.pending_transactions ++
          [{ sender_pub_key := "0", receiver_pub_key := miner,
             amount := bc.mining_reward, signature := some miningRewardSig }]
      ∧ bc'.pending_transactions = []
      ∧ dictGet miner bc'.wallets
          = some { w with balance := w.balance + bc.mining_reward } := by
  obtain ⟨last, nb, -, hbl, -, -, htx, -, hpend, -, -, hws⟩ := mine_block_spec h
  refine ⟨nb, hbl, htx, hpend, ?_⟩
  rw [hws, if_pos (by rw [hw]; rfl), dictGet_modify_self, hw]
  rfl

/-- Witness for C2: mining once from the concrete state `c2bc` with
registered miner `"M"`. -/
theorem mine_block_effects_witness :
    mine_block shaZeros "t1" 1 c2bc "M" = some c2bc'
    ∧ ∃ nb, c2bc'.block_list = c2bc.block_list ++ [nb]
      ∧ nb.transactions = c2bc.pending_transactions ++
          [{ sender_pub_key := "0", receiver_pub_key := "M",
             amount := c2bc.mining_reward, signature := some miningRewardSig }]
      ∧ c2bc'.pending_transactions = []
      ∧ dictGet "M" c2bc'.wallets
          = some { c2w with balance := c2w.balance + c2bc.mining_reward } :=
  ⟨by decide,
   mine_block_effects shaZeros "t1" 1 c2bc c2bc' "M" c2w (by decide) (by decide) (by decide)⟩

/-- Claim C7: the Merkle root of an empty transaction list is the digest
of the empty string, and recomputing the Merkle aggregation from the
transactions stored in a freshly mined block reproduces the stored
`merkle_root`. -/
theorem merkle_root_empty_and_recomputable (sha : String → String) :
    calculate_merkle_root sha [] = sha ""
    ∧ ∀ ts fuel bc miner bc', mine_block sha ts fuel bc miner = some bc' →
        ∃ nb, bc'.block_list.getLast? = some nb
          ∧ nb.merkle_root = calculate_merkle_root sha nb.transactions := by
  refine ⟨rfl, ?_⟩
  intro ts fuel bc miner bc' h
  obtain ⟨-, nb, -, hbl, -, -, -, hmr, -, -, -, -⟩ := mine_block_spec h
  refine ⟨nb, ?_, hmr⟩
  rw [hbl]
  exact List.getLast?_concat _

/-- Witness for C7: the concrete mine from `c2bc` has a last block whose
stored Merkle root equals the recomputation from its transactions. -/
theorem merkle_root_empty_and_recomputable_witness :
    calculate_merkle_root shaZeros [] = shaZeros ""
    ∧ ∃ nb, c2bc'.block_list.getLast? = some nb
        ∧ nb.merkle_root = calculate_merkle_root shaZeros nb.transactions :=
  ⟨(merkle_root_empty_and_recomputable shaZeros).1,
   (merkle_root_empty_and_recomputable shaZeros).2 "t1" 1 c2bc "M" c2bc' (by decide)⟩

/-- Claim C8: when some nonce meets the difficulty target, `proof_of_work`
returns the least such nonce (having searched upward from 0), stores it in
the block, and returns it; the header hash it tests is the digest of the
key-sorted JSON header, independent of the transaction list. -/
theorem proof_of_work_finds_least_nonce (sha : String → String) (b : Block)
    (d fuel : Nat)
    (hex : ∃ n, startsWithStr (blockHash sha { b with nonce := n }) (powTarget d) = true)
    (hfuel : Nat.find hex < fuel) :
    b.proof_of_work sha d fuel = some ({ b with nonce := Nat.find hex }, Nat.find hex)
    ∧ (∀ m, m < Nat.find hex →
        ¬ startsWithStr (blockHash sha { b with nonce := m }) (powTarget d) = true)
    ∧ startsWithStr (blockHash sha { b with nonce := Nat.find hex }) (powTarget d) = true
    ∧ (∀ txs, blockHash sha { b with transactions := txs } = blockHash sha b)
    ∧ blockHash sha b = sha (blockHeaderJson b) := by
  have hmin : ∀ m, m < Nat.find hex →
      ¬ startsWithStr (blockHash sha { b with nonce := m }) (powTarget d) = true :=
    fun m hm => Nat.find_min hex hm
  have hsat := Nat.find_spec hex
  refine ⟨?_, hmin, hsat, fun txs => rfl, rfl⟩
  unfold Block.proof_of_work
  rw [powLoop_min (fun n => blockHash sha { b with nonce := n }) (powTarget d)
    (Nat.find hex) hsat hmin fuel 0 (Nat.zero_le _) (by omega)]

/-- Witness for C8: under the toy hash every nonce meets a one-character
target, so the least winning nonce is 0 and one iteration suffices. -/
theorem proof_of_work_finds_least_nonce_witness :
    c1g.proof_of_work shaZeros 1 1 = some ({ c1g with nonce := 0 }, 0) := by
  have hex : ∃ n, startsWithStr (blockHash shaZeros { c1g with nonce := n })
      (powTarget 1) = true := ⟨0, by decide⟩
  have h0 : Nat.find hex = 0 := (Nat.find_eq_zero hex).mpr (by decide)
  have h := (proof_of_work_finds_least_nonce shaZeros c1g 1 1 hex
    (by rw [h0]; exact Nat.zero_lt_one)).1
  rw [h0] at h
  exact h

/-- Claim C4: whenever `add_transaction` returns normally with a message
other than the success message — the unknown-key, insufficient-funds,
key-mismatch and failed-self-verification rejections — the engine state it
returns is exactly the state it was given. -/
theorem add_transaction_rejection_preserves_state (c : Crypto) (bc : Blockchain)
    (sender receiver : String) (amount : Int) (pk : String)
    (msg : String) (bc' : Blockchain)
    (h : add_transaction c bc sender receiver amount pk = Except.ok (msg, bc'))
    (hrej : msg ≠ "Transaction added to pending list") :
    bc' = bc := by
  unfold add_transaction at h
  dsimp only at h
  repeat' split at h
  all_goals cases h
  all_goals first
    | rfl
    | exact absurd rfl hrej

/-- Witness for C4: a rejected transfer between unregistered keys leaves
the fresh engine untouched. -/
theorem add_transaction_rejection_preserves_state_witness :
    add_transaction testCrypto Blockchain.init "x" "y" 1 "zz"
        = Except.ok ("Invalid sender or receiver public key", Blockchain.init)
    ∧ ("Invalid sender or receiver public key" : String)
        ≠ "Transaction added to pending list"
    ∧ Blockchain.init = Blockchain.init :=
  ⟨by rfl, by decide,
   add_transaction_rejection_preserves_state testCrypto Blockchain.init "x" "y" 1 "zz"
     "Invalid sender or receiver public key" Blockchain.init (by rfl) (by decide)⟩

/-- Claim C3: with both keys registered, sufficient funds, a private key
deriving the sender key, and the freshly signed transaction passing
self-verification, `add_transaction` immediately debits the sender,
credits the receiver, appends the single signed transaction, reports
success, and touches no block. -/
theorem add_transaction_success (c : Crypto) (bc : Blockchain)
    (sender receiver : String) (amount : Int) (pk : String)
    (sw rw : Wallet) (bs : List Nat) (sk : String)
    (hs : dictGet sender bc.wallets = some sw)
    (hr : dictGet receiver bc.wallets = some rw)
    (hne : sender ≠ receiver)
    (hfunds : ¬ sw.balance < amount)
    (hhex : hexDecode pk = some bs)
    (hsk : c.skFromBytes bs = some sk)
    (hmatch : c.derivePub sk = sender)
    (hver : Transaction.verify c
        { Transaction.init sender receiver amount none with
          signature := some (c.sign sk (txSigningData (Transaction.init sender receiver amount none))) }
        sender = Except.ok true) :
    ∃ bc', add_transaction c bc sender receiver amount pk
        = Except.ok ("Transaction added to pending list", bc')
      ∧ dictGet sender bc'.wallets = some { sw with balance := sw.balance - amount }
      ∧ dictGet receiver bc'.wallets = some { rw with balance := rw.balance + amount }
      ∧ bc'.pending_transactions = bc.pending_transactions ++
          [{ Transaction.init sender receiver amount none with
             signature := some (c.sign sk (txSigningData (Transaction.init sender receiver amount none))) }]
      ∧ bc'.block_list = bc.block_list := by
  have heq : add_transaction c bc sender receiver amount pk
      = Except.ok ("Transaction added to pending list",
        { bc with
          wallets := (dictModify receiver (fun w => { w with balance := w.balance + amount })
            (dictModify sender (fun w => { w with balance := w.balance - amount }) bc.wallets)),
          pending_transactions := bc.pending_transactions ++
            [{ Transaction.init sender receiver amount none with
               signature := some (c.sign sk (txSigningData (Transaction.init sender receiver amount none))) }] }) := by
    unfold add_transaction
    rw [hs, hr]
    dsimp only
    rw [if_neg hfunds, hhex]
    dsimp only
    rw [hsk]
    dsimp only
    rw [if_neg (not_not_intro hmatch)]
    rw [hver]
    rfl
  refine ⟨_, heq, ?_, ?_, rfl, rfl⟩
  · show dictGet sender (dictModify receiver _ (dictModify sender _ bc.wallets)) = _
    rw [dictGet_modify_other (Ne.symm hne), dictGet_modify_self, hs]
    rfl
  · show dictGet receiver (dictModify receiver _ (dictModify sender _ bc.wallets)) = _
    rw [dictGet_modify_self, dictGet_modify_other hne, hr]
    rfl

/-- Witness for C3: a concrete transfer of 30 from the funded wallet
`"ab"` to `"cd"` under `testCrypto`. -/
theorem add_transaction_success_witness :
    (∃ bc', add_transaction testCrypto c3bc "ab" "cd" 30 "ab"
        = Except.ok ("Transaction added to pending list", bc')
      ∧ dictGet "ab" bc'.wallets
          = some { name := "A", balance := 70, private_key := "ab", public_key := "ab" }
      ∧ dictGet "cd" bc'.wallets
          = some { name := "B", balance := 30, private_key := "cd", public_key := "cd" }
      ∧ bc'.pending_transactions = c3bc.pending_transactions ++
          [{ Transaction.init "ab" "cd" 30 none with
             signature := some (testCrypto.sign "ab" (txSigningData (Transaction.init "ab" "cd" 30 none))) }]
      ∧ bc'.block_list = c3bc.block_list) := by
  obtain ⟨bc', h₁, h₂, h₃, h₄, h₅⟩ := add_transaction_success testCrypto c3bc "ab" "cd" 30 "ab"
    { name := "A", balance := 100, private_key := "ab", public_key := "ab" }
    { name := "B", balance := 0, private_key := "cd", public_key := "cd" }
    [171] "ab" (by rfl) (by rfl) (by decide) (by decide) (by rfl) (by rfl) (by rfl) (by rfl)
  exact ⟨bc', h₁, h₂, h₃, h₄, h₅⟩

/-- Claim C5 (code bug): `create_wallet` is documented to store a copy
without the private key, but `Wallet.__init__` ignores its `public_key`
argument and always generates a keypair, so the registry copy holds fresh
private-key material and its stored public key differs from the registry
key.  Evaluated here with fresh keys `"k1"` and `"k2"`. -/
theorem create_wallet_stores_fresh_keypair :
    (create_wallet testCrypto "k1" "k2" Blockchain.init "Alice").2.private_key = "k1"
    ∧ dictGet "k1" (create_wallet testCrypto "k1" "k2" Blockchain.init "Alice").1.wallets
        = some { name := "Alice", balance := 0, private_key := "k2", public_key := "k2" }
    ∧ (({ name := "Alice", balance := 0, private_key := "k2", public_key := "k2" }
          : Wallet).public_key ≠ "k1") := by
  decide

/-- Claim C6 (code bug): `add_transaction` has no handler around
`bytes.fromhex`/`SigningKey.from_string`, so a malformed private-key hex
string escapes as an exception instead of producing an outcome message:
here a funded, registered transfer request with private key `"zz"`. -/
theorem add_transaction_malformed_key_raises :
    add_transaction testCrypto c3bc "ab" "cd" 30 "zz" = Except.error "ValueError" := by
  rfl

/-- Decoding inverts encoding on one hex digit. -/
theorem hexDigitVal_hexDigit (n : Nat) (h : n < 16) :
    hexDigitVal (hexDigit n) = some n := by
  interval_cases n <;> decide

/-- Decoding inverts encoding on a byte string (bytes are reduced mod
256, an identity on genuine bytes). -/
theorem hexDecodeList_encode (bs : List Nat) :
    hexDecodeList (bs.foldr
        (fun b acc => hexDigit (b % 256 / 16) :: hexDigit (b % 256 % 16) :: acc) [])
      = some (bs.map (fun b => b % 256)) := by
  induction bs with
  | nil => rfl
  | cons b rest ih =>
    simp only [List.foldr_cons, List.map_cons]
    unfold hexDecodeList
    rw [hexDigitVal_hexDigit _ (by omega), hexDigitVal_hexDigit _ (by omega), ih]
    dsimp only
    congr 2
    omega

/-- `bytes.fromhex(bs.hex())` recovers the bytes. -/
theorem hexDecode_hexEncode (bs : List Nat) :
    hexDecode (hexEncode bs) = some (bs.map (fun b => b % 256)) :=
  hexDecodeList_encode bs

/-- The hex encoding of a non-empty byte string is a non-empty string. -/
theorem hexEncode_ne_empty (b : Nat) (rest : List Nat) :
    hexEncode (b :: rest) ≠ "" := by
  intro hcon
  have : (hexEncode (b :: rest)).data = ("" : String).data := congrArg String.data hcon
  simp [hexEncode] at this

/-- Reloading a saved transaction succeeds and yields `reloadTx`. -/
theorem loadTx_to_dict (tx : Transaction) :
    loadTx tx.to_dict = some (reloadTx tx) := by
  unfold loadTx Transaction.to_dict Transaction.sigHexOpt reloadTx
  cases hsig : tx.signature with
  | none => rfl
  | some bs =>
    cases bs with
    | nil => rfl
    | cons b rest =>
      simp [hexDecode_hexEncode, hexEncode_ne_empty b rest, Transaction.init]

/-- Reloading never changes the header, so the header hash is unchanged. -/
theorem blockHash_reloadBlock (sha : String → String) (b : Block) :
    blockHash sha (reloadBlock b) = blockHash sha b := rfl

/-- Reloading a saved block succeeds (when its stored Merkle root is a
non-empty string, as any genuine digest is) and yields `reloadBlock`. -/
theorem loadBlock_to_saved (sha : String → String) (b : Block)
    (hmr : b.merkle_root ≠ "") :
    loadBlock sha b.to_saved = some (reloadBlock b) := by
  unfold loadBlock Block.to_saved
  have hfold : (b.transactions.map Transaction.to_dict).foldr
      (fun st acc => match loadTx st, acc with
        | some tx, some txs => some (tx :: txs)
        | _, _ => none) (some [])
      = some (b.transactions.map reloadTx) := by
    induction b.transactions with
    | nil => rfl
    | cons t rest ih =>
      simp only [List.map_cons, List.foldr_cons, ih, loadTx_to_dict]
  rw [hfold]
  dsimp only [Block.init, reloadBlock]
  rw [if_neg hmr]

/-- Reloading the saved form of a whole chain succeeds blockwise. -/
theorem loadBlocks_map_to_saved (sha : String → String) (l : List Block)
    (h : ∀ b ∈ l, b.merkle_root ≠ "") :
    loadBlocks sha (l.map Block.to_saved) = some (l.map reloadBlock) := by
  induction l with
  | nil => rfl
  | cons b rest ih =>
    rw [List.map_cons, List.map_cons]
    unfold loadBlocks
    rw [loadBlock_to_saved sha b (h b (by simp)),
      ih (fun x hx => h x (by simp [hx]))]

/-- The pairwise validation walk cannot tell a reloaded chain from the
original: all header data it inspects is preserved. -/
theorem validatePairs_reload (sha : String → String) (d : Nat) :
    ∀ l : List Block,
      validatePairs sha d (l.map reloadBlock) = validatePairs sha d l
  | [] => rfl
  | [_] => rfl
  | p :: c :: rest => by
    have htail := validatePairs_reload sha d (c :: rest)
    simp only [List.map_cons] at htail ⊢
    unfold validatePairs
    rw [blockHash_reloadBlock, blockHash_reloadBlock,
      show (reloadBlock c).previous_hash = c.previous_hash from rfl, htail]

/-- Reconstructed wallets keep exactly the saved keys and balances. -/
theorem loadWallets_balances (c : Crypto) (fresh : Nat → String) :
    ∀ (l : List (String × SavedWallet)) (i : Nat),
      (loadWallets c fresh i l).map (fun kw => (kw.1, kw.2.balance))
        = l.map (fun kw => (kw.1, kw.2.balance)) := by
  intro l
  induction l with
  | nil => intro i; rfl
  | cons kv rest ih =>
    intro i
    obtain ⟨k, wd⟩ := kv
    simp only [loadWallets, List.map_cons, ih]
    rfl

/-- Claim C9: loading the file just saved reproduces a chain with
identical per-block hashes and Merkle roots and a registry with identical
per-key balances, whenever the saved chain passes the loader's validation
(its stored Merkle roots being genuine non-empty digests). -/
theorem save_load_round_trip (sha : String → String) (ts : String) (fuel : Nat)
    (fresh : Nat → String) (c : Crypto) (bc₀ bc bc' : Blockchain) (msg : String)
    (hmr : ∀ b ∈ bc.block_list, b.merkle_root ≠ "")
    (hval : validatePairs sha bc₀.difficulty bc.block_list = true)
    (h : load_blockchain_from_file sha ts fuel fresh c bc₀
        (some (save_blockchain_to_file bc)) = some (bc', msg)) :
    bc'.block_list.map (blockHash sha) = bc.block_list.map (blockHash sha)
    ∧ bc'.block_list.map Block.merkle_root = bc.block_list.map Block.merkle_root
    ∧ bc'.wallets.map (fun kw => (kw.1, kw.2.balance))
        = bc.wallets.map (fun kw => (kw.1, kw.2.balance))
    ∧ msg = "Blockchain loaded successfully" := by
  unfold load_blockchain_from_file save_blockchain_to_file at h
  dsimp only at h
  rw [loadBlocks_map_to_saved sha _ hmr] at h
  dsimp only at h
  rw [if_pos (show validate_blockchain sha
      { bc₀ with block_list := bc.block_list.map reloadBlock,
                 wallets := loadWallets c fresh 0
                   (bc.wallets.map (fun kw => (kw.1, kw.2.to_dict))) } = true by
    unfold validate_blockchain
    dsimp only
    rw [validatePairs_reload]
    exact hval)] at h
  cases h
  refine ⟨?_, ?_, ?_, rfl⟩
  · dsimp only
    rw [List.map_map]
    rfl
  · dsimp only
    rw [List.map_map]
    rfl
  · dsimp only
    rw [loadWallets_balances, List.map_map]
    rfl

/-- Witness for C9: saving the concrete state `c9bc` and loading it into a
fresh engine reproduces its block hash, Merkle root and balance data. -/
theorem save_load_round_trip_witness :
    load_blockchain_from_file shaZeros "t" 1 (fun _ => "f") testCrypto Blockchain.init
        (some (save_blockchain_to_file c9bc)) = some (c9bc', "Blockchain loaded successfully")
    ∧ c9bc'.block_list.map (blockHash shaZeros) = c9bc.block_list.map (blockHash shaZeros)
    ∧ c9bc'.block_list.map Block.merkle_root = c9bc.block_list.map Block.merkle_root
    ∧ c9bc'.wallets.map (fun kw => (kw.1, kw.2.balance))
        = c9bc.wallets.map (fun kw => (kw.1, kw.2.balance)) := by
  have h := save_load_round_trip shaZeros "t" 1 (fun _ => "f") testCrypto Blockchain.init
    c9bc c9bc' "Blockchain loaded successfully" (by decide) (by decide) (by decide)
  exact ⟨by decide, h.1, h.2.1, h.2.2.1⟩

/-- Claim C10: a load that returns — successfully, after a validation
failure with reset to a fresh genesis, or reporting a missing file —
leaves the pending pool exactly as it was, and a subsequent successful
mine places every one of those pending transactions into the appended
block. -/
theorem load_preserves_pending (sha : String → String) (ts : String) (fuel : Nat)
    (fresh : Nat → String) (c : Crypto) (bc : Blockchain) (file : Option SavedState)
    (bc' : Blockchain) (msg : String)
    (h : load_blockchain_from_file sha ts fuel fresh c bc file = some (bc', msg)) :
    bc'.pending_transactions = bc.pending_transactions
    ∧ ∀ miner ts₂ fuel₂ bc'', mine_block sha ts₂ fuel₂ bc' miner = some bc'' →
        ∃ nb, bc''.block_list.getLast? = some nb
          ∧ ∀ tx ∈ bc.pending_transactions, tx ∈ nb.transactions := by
  have hpend : bc'.pending_transactions = bc.pending_transactions := by
    unfold load_blockchain_from_file at h
    cases file with
    | none => cases h; rfl
    | some data =>
      dsimp only at h
      cases hlb : loadBlocks sha data.blocks with
      | none => rw [hlb] at h; cases h
      | some blocks =>
        rw [hlb] at h
        dsimp only at h
        split at h
        · cases h; rfl
        · split at h
          · rename_i bc₂ hg
            cases h
            obtain ⟨-, -, -, -, -, -, hp, -, -⟩ := genesis_block_spec hg
            exact hp
          · cases h
  refine ⟨hpend, ?_⟩
  intro miner ts₂ fuel₂ bc'' hm
  obtain ⟨-, nb, -, hbl, -, -, htx, -, -, -, -, -⟩ := mine_block_spec hm
  refine ⟨nb, by rw [hbl]; exact List.getLast?_concat _, ?_⟩
  intro tx htx'
  rw [htx, hpend]
  exact List.mem_append_left _ htx'

/-- Witness for C10: a missing-file load over the pending-pool state
`c10bc`, followed by the mining guarantee. -/
theorem load_preserves_pending_witness :
    load_blockchain_from_file shaZeros "t" 1 (fun _ => "f") testCrypto c10bc none
        = some (c10bc, "File not found.")
    ∧ c10bc.pending_transactions = c10bc.pending_transactions
    ∧ ∀ miner ts₂ fuel₂ bc'', mine_block shaZeros ts₂ fuel₂ c10bc miner = some bc'' →
        ∃ nb, bc''.block_list.getLast? = some nb
          ∧ ∀ tx ∈ c10bc.pending_transactions, tx ∈ nb.transactions := by
  have h := load_preserves_pending shaZeros "t" 1 (fun _ => "f") testCrypto c10bc none
    c10bc "File not found." (by decide)
  exact ⟨by decide, h.1, h.2⟩
